import Mathlib

/-!
Shallow embedding of the core of the moor repository (a LambdaMOO-style
object database and bytecode VM), for checking its natural-language
specification against the code.

Embedded components:
* the buffer-pool size class (crates/db/src/tuplebox/pool/size_class.rs),
* the slot box page-space encoding (crates/db/src/tuplebox/tuples/slotbox.rs),
* verb resolution (moor-lib/src/db/rocksdb/tx_db_impl_verbs.rs),
* the object store attribute operations (moor-lib/src/db/moor_db.rs),
* the VM's unwinding, scatter and index-set opcodes (moor-lib/src/vm/execute.rs),
* the task scheduler run loop (src/server/scheduler.rs).
-/

namespace Moor

/-! ## Buffer pool size class (tuplebox/pool/size_class.rs)

The allocation bitset `hi_sparse_bitset::BitSet` is embedded as a strictly
ascending list of the set bit indices; its iterator yields the set bits in
ascending order, which is what `find_first_empty` relies on. -/

/-- The set-bit indices of the allocation bitset, kept strictly ascending. -/
abbrev BitSet := List Nat

/-- Membership test of the bitset (`BitSet::contains`). -/
def bsContains (bs : BitSet) (n : Nat) : Bool :=
  (bs : List Nat).contains n

/-- Insert a bit (`BitSet::insert`); inserting a present bit is a no-op. -/
def bsInsert : BitSet → Nat → BitSet
  | [], n => [n]
  | m :: rest, n =>
    if n < m then n :: m :: rest
    else if n = m then m :: rest
    else m :: bsInsert rest n

/-- Remove a bit (`BitSet::remove`). -/
def bsRemove (bs : BitSet) (n : Nat) : BitSet :=
  (bs : List Nat).filter (fun m => m ≠ n)

/-- Number of set bits in the bitset. -/
def bsCard (bs : BitSet) : Nat :=
  (bs : List Nat).length

/-- Well-formedness of the bitset embedding: strictly ascending indices,
matching the ascending iteration order of the source bitset. -/
def bsWF (bs : BitSet) : Prop :=
  (bs : List Nat).Pairwise (· < ·)

/-- Inner loop of `find_first_empty`: scan the set bits in ascending order;
on a nonzero set bit whose predecessor is not in the set, return that
predecessor; when the iterator ends, return one past the last seen bit, or 0
when nothing was seen. `full` is the whole bitset used for `contains`. -/
def ffeLoop (full : BitSet) : List Nat → Option Nat → Nat
  | [], none => 0
  | [], some pos => pos + 1
  | bit :: rest, pos =>
    if bit ≠ 0 && !(bsContains full (bit - 1)) then bit - 1
    else ffeLoop full rest (some bit)

/-- The source's `find_first_empty(bs)`. -/
def find_first_empty (bs : BitSet) : Nat :=
  ffeLoop bs bs none

/-- Spec-side definition for comparison: the lowest-index unset bit of the
bitset (the spec's words for what `alloc` returns). The search range
`bs.length + 1` always contains an unset index. -/
def lowestUnsetBit (bs : BitSet) : Nat :=
  ((List.range (bsCard bs + 1)).find? (fun n => !(bsContains bs n))).getD 0

/-- Errors of the pager (`PagerError`), restricted to the variants the
embedded operations produce. -/
inductive PagerError where
  | insufficientRoom (desired : Nat) (available : Nat)
  | couldNotAllocate
deriving DecidableEq, Repr

/-- State of `SizeClass`: block size, virtual capacity, LIFO free list,
allocation bitset, and the `num_blocks_used` statistics counter
(a plain integer counter in the source). The memory-mapping fields are
not modelled; `madvise`/mmap calls do not affect this state. -/
structure SizeClass where
  block_size : Nat
  virt_size : Nat
  free_list : List Nat
  allocset : BitSet
  num_blocks_used : Int
deriving DecidableEq, Repr

/-- A freshly constructed size class (`SizeClass::new_anon`): empty free
list, empty bitset, zero counter. -/
def SizeClass.new_anon (block_size virt_size : Nat) : SizeClass :=
  { block_size := block_size
    virt_size := virt_size
    free_list := []
    allocset := []
    num_blocks_used := 0 }

/-- `SizeClass::alloc`: pop the free list first; otherwise take
`find_first_empty` of the bitset, failing with `InsufficientRoom` when that
index reaches the block capacity `virt_size / block_size`; in either case
set the bit and increment `num_blocks_used`. The source's `available()`
(used in the error payload) is `virt_size - num_blocks_used`. -/
def SizeClass.alloc (s : SizeClass) : Except PagerError (Nat × SizeClass) :=
  match s.free_list with
  | blocknum :: rest =>
    .ok (blocknum,
      { s with
        free_list := rest
        allocset := bsInsert s.allocset blocknum
        num_blocks_used := s.num_blocks_used + 1 })
  | [] =>
    let blocknum := find_first_empty s.allocset
    if s.virt_size / s.block_size ≤ blocknum then
      .error (.insufficientRoom s.block_size (s.virt_size - s.num_blocks_used).toNat)
    else
      .ok (blocknum,
        { s with
          allocset := bsInsert s.allocset blocknum
          num_blocks_used := s.num_blocks_used + 1 })

/-- `SizeClass::restore`: error if the block is already allocated, else set
the bit and increment the counter. -/
def SizeClass.restore (s : SizeClass) (blocknum : Nat) : Except PagerError SizeClass :=
  if bsContains s.allocset blocknum then .error .couldNotAllocate
  else .ok { s with
    allocset := bsInsert s.allocset blocknum
    num_blocks_used := s.num_blocks_used + 1 }

/-- `SizeClass::free`: clear the bit, push onto the free list, and — as the
source does — add 1 to `num_blocks_used`. The `madvise` release hint has no
effect on this state. The Rust `Vec` free list pushes/pops at the tail; the
embedding keeps the top of that LIFO at the head of the list. -/
def SizeClass.free (s : SizeClass) (blocknum : Nat) : Except PagerError SizeClass :=
  .ok { s with
    allocset := bsRemove s.allocset blocknum
    free_list := blocknum :: s.free_list
    num_blocks_used := s.num_blocks_used + 1 }

/-! ## Slot box page-space records (tuplebox/tuples/slotbox.rs)

`PageId` is `usize` and the free-space value is `usize`; both are 64-bit
naturals. The record is a `u128`. -/

/-- One less than 2 to the 64: the usize bound. -/
def USIZE : Nat := 2 ^ 64

/-- `encode(pid, available)`: the free-space value in the high 64 bits,
the page id in the low bits of a 128-bit word. -/
def encode (pid available : Nat) : Nat :=
  (available <<< 64) ||| pid

/-- `decode(i)`: the source masks the low component with `0xFFFF_FFFF_FFFF`
(48 bits) and takes the high component as `(i >> 64) as usize`. -/
def decode (i : Nat) : Nat × Nat :=
  (i &&& (2 ^ 48 - 1), (i >>> 64) % USIZE)

/-! ## Values and errors (moor-lib/src/model/var.rs, as used by the VM)

Only the variants the embedded opcodes inspect are modelled; floats do not
occur in any embedded operation. The marker variants `_Label`, `_Catch`
and `_Finally` are the unwinding sentinels the VM pushes on the operand
stack. -/

/-- The error enumeration `Error`, restricted to the codes the embedded
operations raise or compare. -/
inductive Err where
  | E_TYPE
  | E_ARGS
  | E_RANGE
  | E_VARNF
  | E_INVARG
  | E_INVIND
  | E_PERM
  | E_PROPNF
  | E_VERBNF
deriving DecidableEq, Repr

/-- The tagged value type `Var`. `vlabel`, `vcatch` and `vfinally` embed
the source's `_Label`, `_Catch` and `_Finally` stack markers; labels and
catch counts are naturals. -/
inductive Var where
  | none
  | int (i : Int)
  | str (s : String)
  | obj (o : Int)
  | err (e : Err)
  | list (l : List Var)
  | vlabel (l : Nat)
  | vcatch (cnt : Nat)
  | vfinally (label : Nat)

/-! ## VM unwinding (moor-lib/src/vm/execute.rs)

An activation is reduced to the fields `unwind_stack` and `Op::Continue`
touch: the operand value stack and the program counter (`jump` sets the
pc). The activation stack keeps its top at the head of the list (the
source keeps it at the tail of a `Vec`). -/

/-- The reason a stack unwind is happening (`FinallyReason`). The source's
`msg`, `stack` and `backtrace` payloads are carried unchanged. -/
inductive FinallyReason where
  | fallthrough
  | raise (code : Err) (msg : String) (value : Var) (stack : List Var)
  | uncaught (code : Err) (msg : String) (value : Var) (stack : List Var)
      (backtrace : List Var)
  | ret (value : Var)
  | abort
  | exit (stack : Nat) (label : Nat)

/-- `FinallyReason::code`: the integer pushed for a finally handler.
`Fallthrough` and `Raise` share the code 0. -/
def FinallyReason.code : FinallyReason → Nat
  | .fallthrough => 0
  | .raise _ _ _ _ => 0
  | .uncaught _ _ _ _ _ => 1
  | .ret _ => 2
  | .abort => 3
  | .exit _ _ => 4

/-- `FinallyReason::from_code`: every valid code (0 through 5) yields
`Fallthrough`; any other code panics in the source, embedded as `none`. -/
def FinallyReason.from_code : Nat → Option FinallyReason
  | 0 => some .fallthrough
  | 1 => some .fallthrough
  | 2 => some .fallthrough
  | 3 => some .fallthrough
  | 4 => some .fallthrough
  | 5 => some .fallthrough
  | _ => Option.none

/-- One VM activation frame, reduced to the operand stack (top at the
head) and the program counter. -/
structure Activation where
  valstack : List Var
  pc : Nat

/-- Result of `unwind_stack` and of a single opcode step: continue with a
new activation stack, complete with a value, surface an exception, or hit
one of the source's `panic!` calls. -/
inductive UnwindResult where
  | more (stack : List Activation)
  | complete (v : Var)
  | exception (why : FinallyReason)
  | panicked

/-- Equality test of a stack value against `Var::Err(code)` (the source's
`Vec::contains` with `PartialEq`): true exactly for the same error value. -/
def varIsErrCode (v : Var) (code : Err) : Bool :=
  match v with
  | .err e => e == code
  | _ => false

/-- The inner while-loop of `unwind_stack` over one activation's value
stack: pop values seeking a handler marker. On a finally marker (for any
reason whose code differs from abort's) jump to its label with the
reason's integer code pushed; on a catch marker and a `Raise` reason, pop
the label/error-list pair below it and jump when the raised code is
listed. Returns the new (pc, valstack) when a handler was entered, `none`
when the value stack is exhausted. -/
def seekHandler (why : FinallyReason) : List Var → Option (Nat × List Var)
  | [] => Option.none
  | v :: rest =>
    match v with
    | .vfinally label =>
      if why.code = FinallyReason.abort.code then seekHandler why rest
      else some (label, Var.int why.code :: rest)
    | .vcatch _ =>
      match why with
      | .raise code _ value _ =>
        match rest with
        | .vlabel pushed_label :: .list error_codes :: rest2 =>
          if error_codes.any (fun v => varIsErrCode v code) then
            some (pushed_label, value :: rest2)
          else seekHandler why rest2
        | _ :: _ :: rest2 => seekHandler why rest2
        | short => seekHandler why short
      | _ => seekHandler why rest
    | _ => seekHandler why rest

/-- `VM::unwind_stack`: walk activations top to bottom; within each, seek
a handler on the value stack; otherwise handle `Exit`, a final `Return`,
and `Uncaught`, then toss the frame, completing with `None` when the last
frame is tossed and re-pushing a returned value into the caller. -/
def unwind_stack (why : FinallyReason) : List Activation → UnwindResult
  | [] => .panicked
  | a :: rest =>
    match seekHandler why a.valstack with
    | some (pc2, vs2) => .more ({ valstack := vs2, pc := pc2 } :: rest)
    | Option.none =>
      match why with
      | .exit _ label => .more ({ valstack := [], pc := label } :: rest)
      | _ =>
        match rest with
        | [] =>
          match why with
          | .ret value => .complete value
          | .uncaught c m v s b => .exception (.uncaught c m v s b)
          | _ => .complete Var.none
        | b :: rest2 =>
          match why with
          | .ret value =>
            .more ({ b with valstack := value :: b.valstack } :: rest2)
          | .uncaught c m v s bt => .exception (.uncaught c m v s bt)
          | _ => unwind_stack why (b :: rest2)

/-- The `Op::Continue` opcode: pop the integer reason code pushed for the
finally handler, decode it with `from_code`, and act on the decoded
reason: `Fallthrough` continues normally, the unwinding reasons resume
`unwind_stack`, `Abort` panics. A non-integer or negative (wrapping) or
invalid code panics. -/
def execContinue : List Activation → UnwindResult
  | [] => .panicked
  | a :: rest =>
    match a.valstack with
    | [] => .panicked
    | v :: vs =>
      match v with
      | .int w =>
        if w < 0 then .panicked
        else
          match FinallyReason.from_code w.toNat with
          | Option.none => .panicked
          | some why =>
            match why with
            | .fallthrough => .more ({ a with valstack := vs } :: rest)
            | .abort => .panicked
            | _ => unwind_stack why ({ a with valstack := vs } :: rest)
      | _ => .panicked

/-! ## The Scatter opcode (moor-lib/src/vm/execute.rs, `Op::Scatter`)

The environment is the activation's variable vector, indexed by slot id.
The right-hand-side list stays on the operand stack (the source peeks,
it does not pop, except on the error paths). -/

/-- One scatter target (`ScatterLabel`): a required slot, the rest slot,
or an optional slot with the label of its default-expression block when
it has one. -/
inductive ScatterLabel where
  | required (id : Nat)
  | rest (id : Nat)
  | optional (id : Nat) (jump_to : Option Nat)
deriving DecidableEq, Repr

/-- Outcome of the Scatter opcode: an error raise (via `push_error`), one
of the source's panics (`assert_eq!` or the rest-loop `unwrap`), or
success with the updated environment and the label jumped to. -/
inductive ScatterOutcome where
  | raised (e : Err)
  | panicked
  | ok (env : List Var) (jump : Nat)

/-- The label loop of `Op::Scatter`: walk the scatter labels consuming
the argument iterator. A required slot takes the next value (E_ARGS when
exhausted); the rest slot takes `nargs - 1` values unconditionally,
panicking when the iterator runs dry (the source unwraps); an optional
slot takes the next value, or breaks out, jumping to its default block
when it has one. Returns the updated environment and the break-jump
label, if any. -/
def scatterLoop (nargs : Nat) :
    List ScatterLabel → List Var → List Var → Except ScatterOutcome (List Var × Option Nat)
  | [], _, env => .ok (env, Option.none)
  | .required id :: ls, args, env =>
    match args with
    | [] => .error (.raised .E_ARGS)
    | arg :: args2 => scatterLoop nargs ls args2 (env.set id arg)
  | .rest id :: ls, args, env =>
    if args.length < nargs - 1 then .error .panicked
    else
      scatterLoop nargs ls (args.drop (nargs - 1))
        (env.set id (Var.list (args.take (nargs - 1))))
  | .optional id jump_to :: ls, args, env =>
    match args with
    | [] => .ok (env, jump_to)
    | arg :: args2 => scatterLoop nargs ls args2 (env.set id arg)

/-- `Op::Scatter`: peek the right-hand-side list (E_TYPE when not a
list), raise E_ARGS when it has fewer values than there are required
slots, check `nargs` against the label count (the source asserts), run
the label loop, then jump to the recorded optional-default label or to
`done`. -/
def execScatter (nargs nreq : Nat) (labels : List ScatterLabel) (done : Nat)
    (rhs : Var) (env : List Var) : ScatterOutcome :=
  match rhs with
  | .list l =>
    if l.length < nreq then .raised .E_ARGS
    else if nargs ≠ labels.length then .panicked
    else
      match scatterLoop nargs labels l env with
      | .error out => out
      | .ok (env2, jump_where) =>
        match jump_where with
        | Option.none => .ok env2 done
        | some j => .ok env2 j
  | _ => .raised .E_TYPE

/-! ## The IndexSet opcode (moor-lib/src/vm/execute.rs, `Op::IndexSet`)

The source's bounds test is `if i < 0 || !i < l.len() as i64`; the `!` is
the bitwise complement on `i64`, so the test compares `-i - 1` against
the length. Rust's `nval[i as usize] = value` and the string slicing
panic when actually out of bounds; those panics are embedded
explicitly. -/

/-- Outcome of `Op::IndexSet`: a raised (catchable) error via
`push_error`, a Rust panic, or the updated collection pushed back. -/
inductive IndexSetOutcome where
  | raised (e : Err)
  | panicked
  | ok (v : Var)

/-- Set one character: the source splices `value[0..1]` into `s` at byte
position `i`. -/
def strSplice (s : String) (i : Nat) (value : String) : String :=
  (s.take i) ++ value.take 1 ++ s.drop (i + 1)

/-- `Op::IndexSet` on popped `(list, index, value)`. -/
def execIndexSet (base index value : Var) : IndexSetOutcome :=
  match base, index with
  | .list l, .int i =>
    if i < 0 ∨ (-i - 1) < (l.length : Int) then .raised .E_RANGE
    else if h : i.toNat < l.length then .ok (.list (l.set i.toNat value))
    else .panicked
  | .str s, .int i =>
    if i < 0 ∨ (-i - 1) < (s.length : Int) then .raised .E_RANGE
    else
      match value with
      | .str v =>
        if v.length ≠ 1 then .raised .E_INVARG
        else if i.toNat ≤ s.length then .ok (.str (strSplice s i.toNat v))
        else .panicked
      | _ => .raised .E_INVARG
  | _, _ => .raised .E_TYPE

/-! ## Verb resolution (moor-lib/src/db/rocksdb/tx_db_impl_verbs.rs)

Object ids are 64-bit signed integers, embedded as `Int`. `NOTHING` is the
sentinel -1. The two RocksDB column families `resolve_verb` reads
(ObjectVerbs and ObjectParent) are embedded as association lists from
object id to verb-definition list and to parent id. -/

/-- The "nothing" object id sentinel. -/
def NOTHING : Int := -1

/-- Argument specifier of a verb argument position (`ArgSpec`). -/
inductive ArgSpec where
  | this
  | anone
  | any
deriving DecidableEq, Repr

/-- Preposition specifier (`PrepSpec`): any preposition, none, or one
specific preposition. -/
inductive PrepSpec where
  | pany
  | pnone
  | other (p : Int)
deriving DecidableEq, Repr

/-- A verb's argument spec (`VerbArgsSpec`): direct object, preposition,
indirect object. -/
structure VerbArgsSpec where
  dobj : ArgSpec
  prep : PrepSpec
  iobj : ArgSpec
deriving DecidableEq, Repr

/-- Modelled from the spec: `ArgSpec` matching for `VerbArgsSpec::matches`,
whose body is not under src/. `any` matches anything; otherwise the
specifiers must be equal. -/
def argSpecMatches (a b : ArgSpec) : Bool :=
  match a, b with
  | .any, _ => true
  | _, .any => true
  | a, b => a == b

/-- Modelled from the spec: `PrepSpec` matching, `any` matching anything,
otherwise equality. -/
def prepSpecMatches (a b : PrepSpec) : Bool :=
  match a, b with
  | .pany, _ => true
  | _, .pany => true
  | a, b => a == b

/-- Modelled from the spec: `VerbArgsSpec::matches` is not under src/; a
verb's argument spec matches a queried spec when every position matches.
This definition is reflexive, which is the only property of it the
source's call site `a.matches(&a)` can observe. -/
def VerbArgsSpec.matches (a b : VerbArgsSpec) : Bool :=
  argSpecMatches a.dobj b.dobj && prepSpecMatches a.prep b.prep &&
    argSpecMatches a.iobj b.iobj

/-- A verb definition (`VerbDef`): uuid, defining location, owner, name
aliases, flags, binary type and argument spec. Flags and binary type are
opaque tags here. -/
structure VerbDef where
  uuid : Nat
  location : Int
  owner : Int
  names : List String
  flags : Nat
  binary_type : Nat
  args : VerbArgsSpec
deriving DecidableEq, Repr

/-- Character-list prefix test, used by the wildcard match. -/
def charsPre : List Char → List Char → Bool
  | [], _ => true
  | _ :: _, [] => false
  | a :: as2, b :: bs2 => a == b && charsPre as2 bs2

/-- Lowercasing of a string (Rust's `str::to_lowercase`), character by
character. -/
def strToLower (s : String) : String :=
  ⟨s.data.map Char.toLower⟩

/-- Modelled from the spec: `verbname_cmp` is not under src/; per the
spec, verb name aliases carry trailing-star wildcards, so a name ending
in a star matches any word that it is a prefix of (star stripped), and
any other name must match exactly. -/
def verbname_cmp (verb word : String) : Bool :=
  if verb.data.getLast? == some (Char.ofNat 42) then
    charsPre verb.data.dropLast word.data
  else verb.data == word.data

/-- `match_in_verb_names`: the first alias in the list that wildcard-
matches the word, case-insensitively. -/
def match_in_verb_names (verb_names : List String) (word : String) : Option String :=
  verb_names.find? (fun verb => verbname_cmp (strToLower verb) (strToLower word))

/-- The state `resolve_verb` reads: the ObjectVerbs column family (verb
definitions per object) and the ObjectParent column family (parent id
per object), embedded as association lists keyed by object id. -/
structure RocksWorld where
  verbs : List (Int × List VerbDef)
  parent : List (Int × Int)

/-- Lookup in an association list keyed by object id. -/
def aLookup {β : Type} (m : List (Int × β)) (k : Int) : Option β :=
  (m.find? (fun kv => kv.1 == k)).map (fun kv => kv.2)

/-- Failure modes of the embedded `resolve_verb`: the source's
`VerbNotFound`, plus a fuel-exhaustion marker (not in the source) for
parent chains that do not reach `NOTHING`. -/
inductive WsError where
  | verbNotFound (o : Int) (n : String)
  | fuelExhausted
deriving DecidableEq, Repr

/-- The loop of `RocksDbTx::resolve_verb`: on the current object, find the
first verb whose names match `n` and — as the source is written — whose
supplied argument spec matches itself (`a.matches(&a)`, not the verb's
own spec); otherwise follow the parent edge, stopping at a missing
parent entry or at `NOTHING`. `fuel` bounds the walk. -/
def resolveVerbLoop (w : RocksWorld) (n : String) (a : Option VerbArgsSpec) :
    Nat → Int → Except WsError VerbDef
  | 0, _ => .error .fuelExhausted
  | fuel + 1, search_o =>
    let verbs := (aLookup w.verbs search_o).getD []
    match verbs.find? (fun vh =>
        if (match_in_verb_names vh.names n).isSome then
          match a with
          | some a2 => VerbArgsSpec.matches a2 a2
          | Option.none => true
        else false) with
    | some verb => .ok verb
    | Option.none =>
      match aLookup w.parent search_o with
      | Option.none => .error (.verbNotFound search_o n)
      | some parent =>
        if parent == NOTHING then .error (.verbNotFound search_o n)
        else resolveVerbLoop w n a fuel parent

/-- `RocksDbTx::resolve_verb(o, n, a)` (the reported `VerbNotFound` names
the original object `o`, as in the source). -/
def resolve_verb (w : RocksWorld) (fuel : Nat) (o : Int) (n : String)
    (a : Option VerbArgsSpec) : Except WsError VerbDef :=
  match resolveVerbLoop w n a fuel o with
  | .ok v => .ok v
  | .error (.verbNotFound _ _) => .error (.verbNotFound o n)
  | .error e => .error e

/-! ## Object store attributes (moor-lib/src/db/moor_db.rs)

The per-attribute `Relation`s are embedded as association lists from
object id to attribute value; the `Relation` type itself is not under
src/. <br> Modelled from the spec: a relation maps a primary domain key to a
codomain value; `update(k,v)` replaces the value of an existing key and
fails when the key is absent; lookups (`seek_for_l_eq`) return the value
for the key when present. -/

/-- Relation update (`update_r`): replace the codomain of an existing
domain key; error when absent (the relation op itself is not under src/,
modelled from the spec's `update(k,v)`). -/
def relUpdate {β : Type} (m : List (Int × β)) (k : Int) (v : β) :
    Option (List (Int × β)) :=
  if (m.find? (fun kv => kv.1 == k)).isSome then
    some (m.map (fun kv => if kv.1 == k then (kv.1, v) else kv))
  else Option.none

/-- The object-attribute relations of `MoorDB` that `object_set_attrs`
and `get_object_inheritance_chain` touch. -/
structure MoorDB where
  obj_attr_parent : List (Int × Int)
  obj_attr_location : List (Int × Int)
  obj_attr_owner : List (Int × Int)
  obj_attr_name : List (Int × String)
  obj_attr_flags : List (Int × Nat)
deriving DecidableEq, Repr

/-- The optional attribute bundle `ObjAttrs`. -/
structure ObjAttrs where
  owner : Option Int := Option.none
  name : Option String := Option.none
  parent : Option Int := Option.none
  location : Option Int := Option.none
  flags : Option Nat := Option.none
deriving DecidableEq, Repr

/-- Store errors surfaced by the embedded operations (`ObjectError`). -/
inductive ObjectError where
  | objectNotFound (o : Int)
  | objectAttributeError (o : Int)
deriving DecidableEq, Repr

/-- `MoorDB::object_valid`: the object has a flags entry. -/
def MoorDB.object_valid (db : MoorDB) (oid : Int) : Bool :=
  (aLookup db.obj_attr_flags oid).isSome

/-- `MoorDB::object_set_attrs`: object must be valid; then each supplied
attribute is written with a plain relation update, in the source's order
(parent, owner, location, flags, name). No cycle check is performed on
the parent or location edges. -/
def MoorDB.object_set_attrs (db : MoorDB) (oid : Int) (attributes : ObjAttrs) :
    Except ObjectError MoorDB := do
  if !(db.object_valid oid) then
    throw (.objectNotFound oid)
  let db ← match attributes.parent with
    | some parent =>
      match relUpdate db.obj_attr_parent oid parent with
      | some r => pure { db with obj_attr_parent := r }
      | Option.none => throw (.objectAttributeError oid)
    | Option.none => pure db
  let db ← match attributes.owner with
    | some owner =>
      match relUpdate db.obj_attr_owner oid owner with
      | some r => pure { db with obj_attr_owner := r }
      | Option.none => throw (.objectAttributeError oid)
    | Option.none => pure db
  let db ← match attributes.location with
    | some location =>
      match relUpdate db.obj_attr_location oid location with
      | some r => pure { db with obj_attr_location := r }
      | Option.none => throw (.objectAttributeError oid)
    | Option.none => pure db
  let db ← match attributes.flags with
    | some flags =>
      match relUpdate db.obj_attr_flags oid flags with
      | some r => pure { db with obj_attr_flags := r }
      | Option.none => throw (.objectAttributeError oid)
    | Option.none => pure db
  let db ← match attributes.name with
    | some name =>
      match relUpdate db.obj_attr_name oid name with
      | some r => pure { db with obj_attr_name := r }
      | Option.none => throw (.objectAttributeError oid)
    | Option.none => pure db
  return db

/-- The while-loop of `get_object_inheritance_chain`: push the current
object and move to its parent (defaulting to `NOTHING` when absent) until
`NOTHING` is reached. The source loop has no termination guard; `fuel`
bounds the walk, with `none` marking a walk still running when the fuel
runs out. -/
def chainLoop (db : MoorDB) : Nat → Int → Option (List Int)
  | 0, current => if current == NOTHING then some [] else Option.none
  | fuel + 1, current =>
    if current == NOTHING then some []
    else
      (chainLoop db fuel ((aLookup db.obj_attr_parent current).getD NOTHING)).map
        (fun chain => current :: chain)

/-- `MoorDB::get_object_inheritance_chain`: empty for an invalid object,
else the parent walk from `oid`. -/
def MoorDB.get_object_inheritance_chain (db : MoorDB) (fuel : Nat) (oid : Int) :
    Option (List Int) :=
  if (aLookup db.obj_attr_flags oid).isNone then some []
  else chainLoop db fuel oid

/-! ## Transaction commit (moor-lib/src/db/rocksdb/tx_db_impl_verbs.rs)
and the task run loop (src/server/scheduler.rs) -/

/-- The outcome of the underlying RocksDB transaction commit: success, or
an error of some kind. Busy and TryAgain are the two kinds the source
inspects. -/
inductive RocksErrKind where
  | busy
  | tryAgain
  | other
deriving DecidableEq, Repr

/-- `CommitResult`. -/
inductive CommitResult where
  | success
  | conflictRetry
deriving DecidableEq, Repr

/-- `RocksDbTx::commit`: map the underlying commit outcome; `Busy` and
`TryAgain` become `ConflictRetry`; any other error is re-raised. -/
def RocksDbTx.commit (r : Except RocksErrKind Unit) : Except RocksErrKind CommitResult :=
  match r with
  | .ok () => .ok .success
  | .error .busy => .ok .conflictRetry
  | .error .tryAgain => .ok .conflictRetry
  | .error e => .error e

/-- Control messages a task receives (`TaskControlMsg`). The start
messages carry whether the VM setup call (`do_method_verb`) succeeds;
the source `expect`s on its result. -/
inductive TaskControlMsg where
  | startCommandVerb (setup_ok : Bool)
  | startVerb (setup_ok : Bool)
  | abort
deriving DecidableEq, Repr

/-- Terminal responses on the scheduler's response channel
(`TaskControlResponse`). -/
inductive TaskControlResponse where
  | success (v : Var)
  | exception (e : FinallyReason)
  | abortError
  | abortCancelled

/-- One `vm.exec` outcome as the run loop sees it: `Ok(More)`,
`Ok(Complete)`, `Ok(Exception)`, or `Err`. -/
inductive ExecOutcome where
  | more
  | complete (v : Var)
  | exception (e : FinallyReason)
  | errRes

/-- The observable actions of one `Task::run`: starting (re-starting) the
verb via `do_method_verb`, committing (with the store's commit result),
rolling back, sending session text, and sending a response. -/
inductive TaskEvent where
  | startEv
  | commitEv (r : CommitResult)
  | rollbackEv
  | sendTextEv
  | respondEv (r : TaskControlResponse)

/-- How a modelled run ends: a terminal response was sent, the input
trace ran out with the loop still running, or the source panicked
(failed `assert!`, `expect` or `unwrap`). -/
inductive RunOutcome where
  | finished (resp : TaskControlResponse)
  | outOfInput
  | panicked

/-- One iteration's inputs to the run loop: the control message received
(if any), the `vm.exec` outcome, and the commit result the store would
return if this iteration commits. -/
structure LoopInput where
  msg : Option TaskControlMsg
  exec : ExecOutcome
  commitRes : CommitResult

/-- The body of `Task::run` after the control-message dispatch, when a
verb is running: the events and outcome of one `vm.exec` step when that
step ends the loop, `none` when the loop continues (`Ok(More)`).
Completion commits (ignoring the commit result) and replies `Success`;
an exception rolls back, notifies the session, and replies `Exception`;
an error rolls back and replies `AbortError`. -/
def execStep (inp : LoopInput) : Option (List TaskEvent × RunOutcome) :=
  match inp.exec with
  | .more => Option.none
  | .complete v =>
    some ([.commitEv inp.commitRes, .respondEv (.success v)], .finished (.success v))
  | .exception e =>
    some ([.rollbackEv, .sendTextEv, .respondEv (.exception e)],
      .finished (.exception e))
  | .errRes =>
    some ([.rollbackEv, .respondEv .abortError], .finished .abortError)

/-- `Task::run`: loop over control messages and VM steps. An `Abort`
message rolls back and replies `AbortCancelled`; a start message while
already running fails the source's `assert!`; a failed VM setup fails the
source's `expect`; with no message and no running verb the loop blocks
and retries. -/
def taskRun : Bool → List LoopInput → List TaskEvent × RunOutcome
  | _, [] => ([], .outOfInput)
  | running, inp :: rest =>
    match inp.msg with
    | some .abort =>
      ([.rollbackEv, .respondEv .abortCancelled], .finished .abortCancelled)
    | some (.startCommandVerb setup_ok) =>
      if running then ([], .panicked)
      else if !setup_ok then ([], .panicked)
      else
        match execStep inp with
        | some (evs, out) => (.startEv :: evs, out)
        | Option.none =>
          let (evs, out) := taskRun true rest
          (.startEv :: evs, out)
    | some (.startVerb setup_ok) =>
      if running then ([], .panicked)
      else if !setup_ok then ([], .panicked)
      else
        match execStep inp with
        | some (evs, out) => (.startEv :: evs, out)
        | Option.none =>
          let (evs, out) := taskRun true rest
          (.startEv :: evs, out)
    | Option.none =>
      if running then
        match execStep inp with
        | some (evs, out) => (evs, out)
        | Option.none => taskRun true rest
      else taskRun running rest

/-- The responses sent during a run, in order. -/
def respondsOf (evs : List TaskEvent) : List TaskControlResponse :=
  evs.filterMap (fun e => match e with
    | .respondEv r => some r
    | _ => Option.none)

/-- Whether a commit was performed during a run. -/
def hasCommit (evs : List TaskEvent) : Bool :=
  evs.any (fun e => match e with
    | .commitEv _ => true
    | _ => false)

/-- Number of verb (re-)starts performed during a run. -/
def countStarts (evs : List TaskEvent) : Nat :=
  evs.countP (fun e => match e with
    | .startEv => true
    | _ => false)

/-- Whether a response is the `Success` variant. -/
def isSuccess (r : TaskControlResponse) : Bool :=
  match r with
  | .success _ => true
  | _ => false

/-- The transaction was rolled back strictly before the (final) response
was sent. -/
def rollbackBeforeRespond (evs : List TaskEvent) : Prop :=
  ∃ pre mid r, evs = pre ++ TaskEvent.rollbackEv :: (mid ++ [TaskEvent.respondEv r])

/-- The exact terminal event block `Task::run` emits for each response
kind. -/
def terminalShape (resp : TaskControlResponse) (evs : List TaskEvent) : Prop :=
  match resp with
  | .success v => ∃ cr, evs = [.commitEv cr, .respondEv (.success v)]
  | .exception e => evs = [.rollbackEv, .sendTextEv, .respondEv (.exception e)]
  | .abortError => evs = [.rollbackEv, .respondEv .abortError]
  | .abortCancelled => evs = [.rollbackEv, .respondEv .abortCancelled]

/-! ## Derivable equality for `Except`, used by decidable evaluations. -/

deriving instance DecidableEq for Except

/-! ## Lemmas about the size-class bitset -/

lemma bsContains_eq_true {bs : BitSet} {n : Nat} : bsContains bs n = true ↔ n ∈ bs := by
  simp [bsContains, List.contains_iff_exists_mem_beq, beq_iff_eq]

lemma ffeLoop_not_mem (full : BitSet) :
    ∀ (l : List Nat) (pos : Option Nat), l.Pairwise (· < ·) →
      (pos = none → l = full) →
      (∀ p, pos = some p → (∀ x ∈ full, x ≤ p ∨ x ∈ l) ∧ (∀ y ∈ l, p ≤ y)) →
      ffeLoop full l pos ∉ full := by
  intro l
  induction l with
  | nil =>
    intro pos _ hnone hsome
    cases pos with
    | none =>
      have hf : full = [] := (hnone rfl).symm
      subst hf
      simp [ffeLoop]
    | some p =>
      simp only [ffeLoop]
      intro hmem
      rcases (hsome p rfl).1 (p + 1) hmem with h | h
      · omega
      · exact absurd h (List.not_mem_nil _)
  | cons bit rest ih =>
    intro pos hpw hnone hsome
    simp only [ffeLoop]
    by_cases hc : (bit ≠ 0 && !(bsContains full (bit - 1))) = true
    · simp only [hc, if_true]
      intro hmem
      rw [Bool.and_eq_true, Bool.not_eq_true'] at hc
      exact absurd (bsContains_eq_true.2 hmem) (by simp [hc.2])
    · simp only [hc, if_false]
      have hpw' := (List.pairwise_cons.1 hpw).2
      apply ih (some bit) hpw'
      · intro h; exact absurd h (by simp)
      · intro p hp
        injection hp with hp; subst hp
        constructor
        · intro x hx
          cases pos with
          | none =>
            have hx2 : x ∈ bit :: rest := by rw [hnone rfl]; exact hx
            rcases List.mem_cons.1 hx2 with h | h
            · left; omega
            · right; exact h
          | some q =>
            rcases (hsome q rfl).1 x hx with h | h
            · left
              have := (hsome q rfl).2 bit (by simp)
              omega
            · rcases List.mem_cons.1 h with h2 | h2
              · left; omega
              · right; exact h2
        · intro y hy
          have := (List.pairwise_cons.1 hpw).1 y hy
          omega

lemma ffe_not_mem (bs : BitSet) (h : bsWF bs) : find_first_empty bs ∉ bs := by
  apply ffeLoop_not_mem bs bs none h (fun _ => rfl)
  intro p hp; cases hp

lemma ffeLoop_range (k : Nat) :
    ∀ (m p : Nat), p + 1 + m ≤ k →
      ffeLoop (List.range k) (List.range' (p + 1) m) (some p) = p + m + 1 := by
  intro m
  induction m with
  | zero => intro p _; simp [ffeLoop]
  | succ m ih =>
    intro p hpk
    rw [List.range'_succ]
    simp only [ffeLoop]
    have hcont : bsContains (List.range k) (p + 1 - 1) = true := by
      apply bsContains_eq_true.2
      simp only [List.mem_range]
      omega
    rw [hcont]
    simp only [Bool.not_true, Bool.and_false, Bool.false_eq_true, if_false]
    have := ih (p + 1) (by omega)
    rw [this]; omega

lemma ffe_range (k : Nat) : find_first_empty (List.range k) = k := by
  cases k with
  | zero => simp [find_first_empty, ffeLoop]
  | succ j =>
    unfold find_first_empty
    have h0 : List.range (j + 1) = 0 :: List.range' 1 j := by
      rw [List.range_eq_range', List.range'_succ]
    nth_rewrite 2 [h0]
    simp only [ffeLoop, ne_eq, not_true_eq_false, decide_False, Bool.false_and,
      Bool.false_eq_true, if_false]
    have := ffeLoop_range (j + 1) j 0 (by omega)
    simpa using this

lemma range_le_of_not_mem (k j : Nat) (h : j ∉ List.range k) : k ≤ j := by
  simpa [List.mem_range] using h

/-! ## Lemmas about the page-space encoding -/

lemma encode_eq (pid available : Nat) (h : pid < USIZE) :
    encode pid available = 2 ^ 64 * available + pid := by
  unfold encode
  rw [Nat.shiftLeft_eq, Nat.mul_comm, ← Nat.mul_add_lt_is_or h]

lemma decode_encode (pid available : Nat) (h : pid < USIZE) :
    decode (encode pid available) = (pid % 2 ^ 48, available % USIZE) := by
  rw [encode_eq pid available h]
  unfold decode USIZE
  apply Prod.ext
  · show 2 ^ 64 * available + pid &&& 2 ^ 48 - 1 = pid % 2 ^ 48
    rw [Nat.and_pow_two_sub_one_eq_mod]
    have h64 : (2 : Nat) ^ 64 = 2 ^ 48 * 2 ^ 16 := by norm_num
    rw [h64, Nat.mul_assoc, Nat.mul_add_mod]
  · show (2 ^ 64 * available + pid) >>> 64 % 2 ^ 64 = available % 2 ^ 64
    rw [Nat.shiftRight_eq_div_pow, Nat.mul_add_div (by positivity),
      Nat.div_eq_of_lt (by exact h)]
    simp

lemma encode_lt_encode (p1 p2 a1 a2 : Nat) (h1 : p1 < USIZE) (h2 : p2 < USIZE)
    (ha : a1 < a2) : encode p1 a1 < encode p2 a2 := by
  rw [encode_eq p1 a1 h1, encode_eq p2 a2 h2]
  have : (USIZE : Nat) = 2 ^ 64 := rfl
  nlinarith [Nat.mul_le_mul_left (2 ^ 64) (Nat.succ_le_of_lt ha)]

/-! ## Lemmas about IndexSet -/

lemma indexSet_list_always_range (l : List Var) (i : Int) (value : Var) :
    execIndexSet (.list l) (.int i) value = .raised .E_RANGE := by
  rw [execIndexSet]
  rw [if_pos]
  by_cases hi : i < 0
  · exact Or.inl hi
  · right
    have : (0 : Int) ≤ l.length := Int.ofNat_nonneg _
    omega

lemma indexSet_str_always_range (s : String) (i : Int) (value : Var) :
    execIndexSet (.str s) (.int i) value = .raised .E_RANGE := by
  have hcond : i < 0 ∨ (-i - 1) < (s.length : Int) := by
    by_cases hi : i < 0
    · exact Or.inl hi
    · right
      have : (0 : Int) ≤ s.length := Int.ofNat_nonneg _
      omega
  cases value <;> simp [execIndexSet, hcond]

/-! ## Lemmas about the object store -/

lemma relUpdate_some {β : Type} (m : List (Int × β)) (k : Int) (v : β)
    (h : ((m.find? (fun kv => kv.1 == k)).isSome) = true) :
    ∃ m2, relUpdate m k v = some m2 ∧ aLookup m2 k = some v := by
  refine ⟨m.map (fun kv => if kv.1 == k then (kv.1, v) else kv),
    by simp [relUpdate, h], ?_⟩
  induction m with
  | nil => simp [List.find?] at h
  | cons kv rest ih =>
    by_cases hk : (kv.1 == k) = true
    · simp only [aLookup, List.map_cons, if_pos hk]
      rw [List.find?_cons_of_pos _ (by simpa using hk)]
      simp
    · rw [List.find?_cons_of_neg _ (by simp [hk])] at h
      have := ih h
      simp only [aLookup] at this ⊢
      simp only [List.map_cons, if_neg hk]
      rw [List.find?_cons_of_neg _ (by simp [hk])]
      exact this

lemma chainLoop_self_cycle :
    ∀ fuel, chainLoop ⟨[(1, 1)], [(1, -1)], [(1, -1)], [(1, "x")], [(1, 0)]⟩ fuel 1
      = Option.none := by
  intro fuel
  induction fuel with
  | zero => rfl
  | succ n ih =>
    rw [chainLoop]
    simp only [show ((1 : Int) == NOTHING) = false from rfl, if_false]
    have hl : aLookup (⟨[(1, 1)], [(1, -1)], [(1, -1)], [(1, "x")], [(1, 0)]⟩ :
        MoorDB).obj_attr_parent 1 = some 1 := rfl
    rw [hl]
    simp only [Option.getD]
    rw [ih]
    rfl

/-! ## Lemmas about the task run loop -/

lemma execStep_shape (inp : LoopInput) (evs : List TaskEvent) (resp : TaskControlResponse)
    (h : execStep inp = some (evs, .finished resp)) : terminalShape resp evs := by
  unfold execStep at h
  cases hexec : inp.exec <;> rw [hexec] at h
  · exact absurd h (by simp)
  · injection h with h
    injection h with h1 h2
    injection h2 with h2
    subst h2; subst h1
    exact ⟨inp.commitRes, rfl⟩
  · injection h with h
    injection h with h1 h2
    injection h2 with h2
    subst h2; subst h1
    rfl
  · injection h with h
    injection h with h1 h2
    injection h2 with h2
    subst h2; subst h1
    rfl

lemma taskRun_shape : ∀ (inputs : List LoopInput) (running : Bool)
    (evs : List TaskEvent) (resp : TaskControlResponse),
    taskRun running inputs = (evs, .finished resp) →
    ∃ pre term, evs = pre ++ term ∧ (∀ e ∈ pre, e = TaskEvent.startEv) ∧
      terminalShape resp term := by
  intro inputs
  induction inputs with
  | nil =>
    intro running evs resp h
    simp [taskRun] at h
  | cons inp rest ih =>
    intro running evs resp h
    unfold taskRun at h
    cases hmsg : inp.msg with
    | some m =>
      cases m with
      | abort =>
        rw [hmsg] at h
        simp only [] at h
        injection h with h1 h2
        injection h2 with h2
        subst h2
        exact ⟨[], evs, by simp [h1.symm], by simp, by rw [← h1]; rfl⟩
      | startCommandVerb setup_ok =>
        rw [hmsg] at h
        simp only [] at h
        by_cases hr : running
        · rw [if_pos hr] at h; injection h with h1 h2; cases h2
        · rw [if_neg hr] at h
          by_cases hs : (!setup_ok : Bool) = true
          · rw [if_pos hs] at h; injection h with h1 h2; cases h2
          · rw [if_neg hs] at h
            cases hes : execStep inp with
            | some pr =>
              rw [hes] at h
              obtain ⟨evs2, out⟩ := pr
              simp only [] at h
              injection h with h1 h2
              subst h2
              exact ⟨[.startEv], evs2, by simp [h1.symm], by simp,
                execStep_shape inp evs2 resp hes⟩
            | none =>
              rw [hes] at h
              simp only [] at h
              rcases htr : taskRun true rest with ⟨evs3, out3⟩
              rw [htr] at h
              injection h with h1 h2
              subst h2
              obtain ⟨pre, term, he, hp, ht⟩ := ih true evs3 resp htr
              refine ⟨.startEv :: pre, term, by simp [h1.symm, he], ?_, ht⟩
              intro e he2
              rcases List.mem_cons.1 he2 with h3 | h3
              · exact h3
              · exact hp _ h3
      | startVerb setup_ok =>
        rw [hmsg] at h
        simp only [] at h
        by_cases hr : running
        · rw [if_pos hr] at h; injection h with h1 h2; cases h2
        · rw [if_neg hr] at h
          by_cases hs : (!setup_ok : Bool) = true
          · rw [if_pos hs] at h; injection h with h1 h2; cases h2
          · rw [if_neg hs] at h
            cases hes : execStep inp with
            | some pr =>
              rw [hes] at h
              obtain ⟨evs2, out⟩ := pr
              simp only [] at h
              injection h with h1 h2
              subst h2
              exact ⟨[.startEv], evs2, by simp [h1.symm], by simp,
                execStep_shape inp evs2 resp hes⟩
            | none =>
              rw [hes] at h
              simp only [] at h
              rcases htr : taskRun true rest with ⟨evs3, out3⟩
              rw [htr] at h
              injection h with h1 h2
              subst h2
              obtain ⟨pre, term, he, hp, ht⟩ := ih true evs3 resp htr
              refine ⟨.startEv :: pre, term, by simp [h1.symm, he], ?_, ht⟩
              intro e he2
              rcases List.mem_cons.1 he2 with h3 | h3
              · exact h3
              · exact hp _ h3
    | none =>
      rw [hmsg] at h
      simp only [] at h
      by_cases hr : running
      · rw [if_pos hr] at h
        cases hes : execStep inp with
        | some pr =>
          rw [hes] at h
          obtain ⟨evs2, out⟩ := pr
          simp only [] at h
          injection h with h1 h2
          subst h2
          exact ⟨[], evs2, by simp [h1.symm], by simp,
            execStep_shape inp evs2 resp hes⟩
        | none =>
          rw [hes] at h
          exact ih true evs resp h
      · rw [if_neg hr] at h
        exact ih running evs resp h

/-! ## Claim theorems -/

/-- Claim C1, counterexample. The claim says commit returns either Success
or ConflictRetry and never raises, and that a first ConflictRetry causes
the task to be re-executed before any outcome is reported. In the code,
`RocksDbTx::commit` re-raises any storage error other than Busy/TryAgain;
and `Task::run` commits exactly once on completion and reports `Success`
immediately — here a run whose commit yields ConflictRetry still reports
`Success` after a single verb start, with no re-execution. -/
theorem c1_commit_raises_and_no_retry_counterexample :
    RocksDbTx.commit (.error .other) = .error .other ∧
    taskRun false [⟨some (.startVerb true), .complete (.int 0), .conflictRetry⟩]
      = ([.startEv, .commitEv .conflictRetry, .respondEv (.success (.int 0))],
         .finished (.success (.int 0))) ∧
    countStarts [.startEv, .commitEv .conflictRetry, .respondEv (.success (.int 0))]
      = 1 :=
  ⟨rfl, rfl, rfl⟩

/-- Claim C1, amended. `RocksDbTx::commit` returns Success on a clean
commit and ConflictRetry exactly when the storage layer reports Busy or
TryAgain; any other storage error is re-raised. The scheduler performs no
conflict retry: when a running task's `vm.exec` completes, `Task::run`
commits once and reports `Success` regardless of the commit result,
without re-executing the verb. -/
theorem c1_commit_classification_no_retry :
    RocksDbTx.commit (.ok ()) = .ok .success ∧
    (∀ k : RocksErrKind,
      RocksDbTx.commit (.error k) =
        if k = .busy ∨ k = .tryAgain then .ok .conflictRetry else .error k) ∧
    (∀ (v : Var) (cr : CommitResult) (rest : List LoopInput),
      taskRun true (⟨Option.none, .complete v, cr⟩ :: rest)
        = ([.commitEv cr, .respondEv (.success v)], .finished (.success v))) := by
  refine ⟨rfl, ?_, fun v cr rest => rfl⟩
  intro k
  cases k <;> rfl

/-- Claim C2. Verb resolution is claimed to skip a verb whose name matches
but whose argument spec does not match the supplied spec. In the code,
`resolve_verb` evaluates `a.matches(&a)` — the supplied spec against
itself — so the filter always passes: here an object's only verb has spec
(this, none, this), the caller supplies (none, none, none), the two specs
do not match, and the verb is returned anyway instead of being skipped. -/
theorem c2_argspec_filter_not_applied :
    resolve_verb
        ⟨[(0, [⟨0, 0, 0, ["foo"], 0, 0, ⟨.this, .pnone, .this⟩⟩])], [(0, -1)]⟩
        10 0 "foo" (some ⟨.anone, .pnone, .anone⟩)
      = .ok ⟨0, 0, 0, ["foo"], 0, 0, ⟨.this, .pnone, .this⟩⟩ ∧
    VerbArgsSpec.matches ⟨.this, .pnone, .this⟩ ⟨.anone, .pnone, .anone⟩ = false ∧
    VerbArgsSpec.matches ⟨.anone, .pnone, .anone⟩ ⟨.anone, .pnone, .anone⟩ = true :=
  ⟨rfl, rfl, rfl⟩

/-- Claim C3. A return unwinding into a finally-marker does jump to the
handler with the integer code 2 on the stack; but the handler's `Continue`
opcode does not resume the original unwinding: `from_code` maps every
code to `Fallthrough`, so `Continue` falls through. Resuming would have
completed the unwind by pushing the returned value into the caller frame;
the fallen-through state differs from that. -/
theorem c3_continue_falls_through :
    unwind_stack (.ret (.int 9)) [⟨[.vfinally 7], 0⟩, ⟨[], 5⟩]
      = .more [⟨[.int 2], 7⟩, ⟨[], 5⟩] ∧
    FinallyReason.code (.ret (.int 9)) = 2 ∧
    FinallyReason.from_code 2 = some .fallthrough ∧
    execContinue [⟨[.int 2], 7⟩, ⟨[], 5⟩] = .more [⟨[], 7⟩, ⟨[], 5⟩] ∧
    unwind_stack (.ret (.int 9)) [⟨[], 7⟩, ⟨[], 5⟩] = .more [⟨[.int 9], 5⟩] ∧
    UnwindResult.more [⟨[], 7⟩, ⟨[], 5⟩] ≠ .more [⟨[.int 9], 5⟩] := by
  refine ⟨rfl, rfl, rfl, rfl, rfl, ?_⟩
  intro h
  injection h with h
  injection h with h1 h2
  exact absurd h2 (by simp)

/-- Claim C4, counterexample. The claim says a store update rejects a
parent edge that would create a cycle. `object_set_attrs` performs no
such check: setting object 1's parent to itself succeeds, the self-edge
is stored, and the inheritance-chain walk from 1 no longer terminates
(it exhausts any fuel). -/
theorem c4_cycle_edge_accepted_counterexample :
    MoorDB.object_set_attrs ⟨[(1, -1)], [(1, -1)], [(1, -1)], [(1, "x")], [(1, 0)]⟩
        1 { parent := some 1 }
      = .ok ⟨[(1, 1)], [(1, -1)], [(1, -1)], [(1, "x")], [(1, 0)]⟩ ∧
    aLookup ([(1, 1)] : List (Int × Int)) 1 = some 1 ∧
    MoorDB.get_object_inheritance_chain
        ⟨[(1, 1)], [(1, -1)], [(1, -1)], [(1, "x")], [(1, 0)]⟩ 50 1 = Option.none ∧
    MoorDB.get_object_inheritance_chain
        ⟨[(1, -1)], [(1, -1)], [(1, -1)], [(1, "x")], [(1, 0)]⟩ 50 1 = some [1] :=
  ⟨rfl, rfl, rfl, rfl⟩

/-- Claim C4, amended. The store applies no acyclicity check: on any valid
object with a parent entry, `object_set_attrs` accepts any parent edge —
including one that creates a cycle — and stores it; consequently the
parent walk of `get_object_inheritance_chain` is not total: on the
self-parent state it fails to terminate within any fuel bound. -/
theorem c4_no_cycle_check_amended :
    (∀ (db : MoorDB) (oid p : Int), db.object_valid oid = true →
      ((db.obj_attr_parent.find? (fun kv => kv.1 == oid)).isSome) = true →
      ∃ db2, db.object_set_attrs oid { parent := some p } = .ok db2 ∧
        aLookup db2.obj_attr_parent oid = some p) ∧
    (∀ fuel, MoorDB.get_object_inheritance_chain
        ⟨[(1, 1)], [(1, -1)], [(1, -1)], [(1, "x")], [(1, 0)]⟩ fuel 1
      = Option.none) := by
  constructor
  · intro db oid p hvalid hpar
    obtain ⟨m2, hru, hlk⟩ := relUpdate_some db.obj_attr_parent oid p hpar
    refine ⟨{ db with obj_attr_parent := m2 }, ?_, hlk⟩
    rw [MoorDB.object_set_attrs]
    simp only [hvalid, Bool.not_true, Bool.false_eq_true, if_false, hru]
    rfl
  · intro fuel
    rw [MoorDB.get_object_inheritance_chain]
    simp only [show (aLookup (⟨[(1, 1)], [(1, -1)], [(1, -1)], [(1, "x")], [(1, 0)]⟩ :
      MoorDB).obj_attr_flags 1).isNone = false from rfl, if_false]
    exact chainLoop_self_cycle fuel

/-- Witness for the amended C4 theorem at a concrete store. -/
theorem c4_no_cycle_check_amended_witness :
    (∃ db2, MoorDB.object_set_attrs
        ⟨[(1, -1)], [(1, -1)], [(1, -1)], [(1, "x")], [(1, 0)]⟩ 1 { parent := some 1 }
        = .ok db2 ∧ aLookup db2.obj_attr_parent 1 = some 1) ∧
    MoorDB.get_object_inheritance_chain
        ⟨[(1, 1)], [(1, -1)], [(1, -1)], [(1, "x")], [(1, 0)]⟩ 7 1 = Option.none :=
  ⟨c4_no_cycle_check_amended.1
      ⟨[(1, -1)], [(1, -1)], [(1, -1)], [(1, "x")], [(1, 0)]⟩ 1 1 rfl rfl,
    c4_no_cycle_check_amended.2 7⟩

/-- Claim C5. The claim (and the spec's invariant) says that after any
sequence of alloc/free/restore calls, the number of set bits in the
class's bitset equals `num_blocks_used`. In the code `free` adds 1 to
`num_blocks_used` instead of subtracting: after one alloc and one free on
a fresh class the bitset has 0 set bits while the counter reads 2. -/
theorem c5_free_increments_counter :
    (SizeClass.new_anon 1 4).alloc = .ok (0, ⟨1, 4, [], [0], 1⟩) ∧
    SizeClass.free ⟨1, 4, [], [0], 1⟩ 0 = .ok ⟨1, 4, [0], [], 2⟩ ∧
    bsCard (⟨1, 4, [0], [], 2⟩ : SizeClass).allocset = 0 ∧
    (⟨1, 4, [0], [], 2⟩ : SizeClass).num_blocks_used = 2 ∧
    ¬ (bsCard (⟨1, 4, [0], [], 2⟩ : SizeClass).allocset
        = (⟨1, 4, [0], [], 2⟩ : SizeClass).num_blocks_used.toNat) := by
  refine ⟨by decide, by decide, rfl, rfl, by decide⟩

/-- Claim C6, counterexample. The claim says that with an empty free list
`alloc` marks and returns the lowest-index unset bit. Restoring block 2
into a fresh class leaves the free list empty and the bitset at 2 only;
the lowest unset bit is 0, yet `alloc` returns 1 (the repository's own
`test_bitset_seek` asserts this same value for `find_first_empty`). -/
theorem c6_not_lowest_unset_counterexample :
    (SizeClass.new_anon 1 4).restore 2 = .ok ⟨1, 4, [], [2], 1⟩ ∧
    SizeClass.alloc ⟨1, 4, [], [2], 1⟩ = .ok (1, ⟨1, 4, [], [1, 2], 2⟩) ∧
    lowestUnsetBit [2] = 0 ∧ (1 : Nat) ≠ 0 := by
  refine ⟨by decide, by decide, by decide, by decide⟩

/-- Claim C6, amended. With an empty free list, `alloc` marks and returns
`find_first_empty` of the bitset — an unset bit, but the bit preceding
the first ascending set bit whose predecessor is unset (one past the
greatest set bit when there is no such gap), not in general the lowest
unset bit; it equals the lowest unset bit whenever the allocated bits
form an initial segment `0..k-1`. `alloc` fails, with InsufficientRoom,
exactly when that index reaches the block capacity. -/
theorem c6_alloc_first_empty_amended :
    ∀ s : SizeClass, bsWF s.allocset → s.free_list = [] →
      find_first_empty s.allocset ∉ s.allocset ∧
      (s.virt_size / s.block_size ≤ find_first_empty s.allocset →
        s.alloc = .error (.insufficientRoom s.block_size
          (s.virt_size - s.num_blocks_used).toNat)) ∧
      (find_first_empty s.allocset < s.virt_size / s.block_size →
        s.alloc = .ok (find_first_empty s.allocset,
          { s with allocset := bsInsert s.allocset (find_first_empty s.allocset),
                   num_blocks_used := s.num_blocks_used + 1 })) ∧
      (∀ k, s.allocset = List.range k →
        find_first_empty s.allocset = k ∧ ∀ j, j ∉ s.allocset → k ≤ j) := by
  intro s hwf hfl
  obtain ⟨bs, vs, fl, aset, nb⟩ := s
  simp only at hwf hfl ⊢
  subst hfl
  refine ⟨ffe_not_mem aset hwf, ?_, ?_, ?_⟩
  · intro hge
    unfold SizeClass.alloc
    simp only []
    rw [if_pos hge]
  · intro hlt
    unfold SizeClass.alloc
    simp only []
    rw [if_neg (by omega)]
  · intro k hk
    subst hk
    exact ⟨ffe_range k, fun j hj => range_le_of_not_mem k j hj⟩

/-- Witness for the amended C6 theorem at the restored-block state. -/
theorem c6_alloc_first_empty_amended_witness :
    find_first_empty ([2] : BitSet) ∉ ([2] : BitSet) ∧
    SizeClass.alloc ⟨1, 4, [], [2], 1⟩
      = .ok (find_first_empty ([2] : BitSet),
        { (⟨1, 4, [], [2], 1⟩ : SizeClass) with
            allocset := bsInsert [2] (find_first_empty ([2] : BitSet)),
            num_blocks_used := 1 + 1 }) :=
  have h := c6_alloc_first_empty_amended ⟨1, 4, [], [2], 1⟩ (by simp [bsWF]) rfl
  ⟨h.1, h.2.2.1 (by decide)⟩

/-- Claim C7, counterexample. The claim says decode of encode yields the
original pair for every page id. `decode` masks the page id with 48 bits,
so the page id 2 to the 48 (a valid usize) round-trips to 0. -/
theorem c7_roundtrip_mask_counterexample :
    decode (encode (2 ^ 48) 0) = (0, 0) ∧
    ((0, 0) : Nat × Nat) ≠ (2 ^ 48, 0) ∧ (2 : Nat) ^ 48 < USIZE := by
  refine ⟨by decide, by decide, by decide⟩

/-- Claim C7, amended. Decoding an encoded record recovers the free-space
value exactly and the page id reduced modulo 2 to the 48 — hence the
exact original pair whenever the page id is below 2 to the 48 — and
comparing two encoded records as 128-bit integers orders them primarily
by free space. -/
theorem c7_roundtrip_masked_amended :
    (∀ pid available : Nat, pid < USIZE →
      decode (encode pid available) = (pid % 2 ^ 48, available % USIZE)) ∧
    (∀ pid available : Nat, pid < 2 ^ 48 → available < USIZE →
      decode (encode pid available) = (pid, available)) ∧
    (∀ p1 a1 p2 a2 : Nat, p1 < USIZE → p2 < USIZE → a1 < a2 →
      encode p1 a1 < encode p2 a2) := by
  refine ⟨fun pid available h => decode_encode pid available h, ?_,
    fun p1 a1 p2 a2 h1 h2 ha => encode_lt_encode p1 p2 a1 a2 h1 h2 ha⟩
  intro pid available hp ha
  have hp2 : pid < USIZE := lt_trans hp (by decide)
  rw [decode_encode pid available hp2, Nat.mod_eq_of_lt hp, Nat.mod_eq_of_lt ha]

/-- Witness for the amended C7 theorem at concrete values. -/
theorem c7_roundtrip_masked_amended_witness :
    decode (encode 3 5) = (3, 5) ∧ encode 3 5 < encode 9 6 :=
  ⟨c7_roundtrip_masked_amended.2.1 3 5 (by decide) (by decide),
    c7_roundtrip_masked_amended.2.2 3 5 9 6 (by decide) (by decide) (by decide)⟩

/-- Claim C8. Required slots bind in order and a short list raises E_ARGS,
but the rest slot is not bound to the leftover tail: the code pulls
exactly `nargs - 1` values. For the scatter of (required a, rest b)
against the list (1, 2, 3) the leftover tail beyond the one non-rest slot
is (2, 3), yet b is bound to (2) alone; and for (required a, rest b,
required c) against (1, 2) — which satisfies the required-count check —
the source's unwrap panics. -/
theorem c8_rest_not_leftover :
    execScatter 2 1 [.required 0, .rest 1] 99
        (.list [.int 1, .int 2, .int 3]) [.none, .none]
      = .ok [.int 1, .list [.int 2]] 99 ∧
    Var.list [.int 2] ≠ Var.list [.int 2, .int 3] ∧
    execScatter 3 2 [.required 0, .rest 1, .required 2] 99
        (.list [.int 1, .int 2]) [.none, .none, .none]
      = .panicked ∧
    execScatter 2 2 [.required 0, .required 1] 99
        (.list [.int 1]) [.none, .none]
      = .raised .E_ARGS ∧
    execScatter 2 1 [.required 0, .optional 1 (some 42)] 99
        (.list [.int 1]) [.none, .none]
      = .ok [.int 1, .none] 42 := by
  refine ⟨rfl, ?_, rfl, rfl, rfl⟩
  intro h
  injection h with h
  exact absurd h (by simp)

/-- Claim C9. For every list or string base and integer index that is out
of bounds, the IndexSet operation raises E_RANGE through `push_error` —
a catchable program error: raising E_RANGE into a frame whose operand
stack holds a catch marker listing E_RANGE jumps to that handler — and
the step is total on such inputs: it never reaches the panicking
out-of-bounds write. -/
theorem c9_indexset_range_error (l : List Var) (s : String) (i : Int) (value : Var)
    (stackrest : List Var) (pc handler : Nat) (msg : String) (v2 : Var)
    (st : List Var) :
    ((i < 1 ∨ (l.length : Int) < i) →
      execIndexSet (.list l) (.int i) value = .raised .E_RANGE) ∧
    ((i < 1 ∨ (s.length : Int) < i) →
      execIndexSet (.str s) (.int i) value = .raised .E_RANGE) ∧
    execIndexSet (.list l) (.int i) value ≠ .panicked ∧
    execIndexSet (.str s) (.int i) value ≠ .panicked ∧
    unwind_stack (.raise .E_RANGE msg v2 st)
        [⟨.vcatch 1 :: .vlabel handler :: .list [.err .E_RANGE] :: stackrest, pc⟩]
      = .more [⟨v2 :: stackrest, handler⟩] := by
  refine ⟨fun _ => indexSet_list_always_range l i value,
    fun _ => indexSet_str_always_range s i value, ?_, ?_, rfl⟩
  · rw [indexSet_list_always_range l i value]
    intro h
    cases h
  · rw [indexSet_str_always_range s i value]
    intro h
    cases h

/-- Witness for the C9 theorem at concrete out-of-bounds inputs. -/
theorem c9_indexset_range_error_witness :
    execIndexSet (.list []) (.int 5) .none = .raised .E_RANGE ∧
    execIndexSet (.str "") (.int 5) .none = .raised .E_RANGE ∧
    unwind_stack (.raise .E_RANGE "" (.int 0) [])
        [⟨[.vcatch 1, .vlabel 9, .list [.err .E_RANGE]], 0⟩]
      = .more [⟨[.int 0], 9⟩] :=
  have h := c9_indexset_range_error [] "" 5 .none [] 0 9 "" (.int 0) []
  ⟨h.1 (Or.inr (by decide)), h.2.1 (Or.inr (by decide)), h.2.2.2.2⟩

/-- Claim C10. Every terminating run of `Task::run` sends exactly one
terminal response on the response channel; a commit is performed if and
only if that response is `Success`; and on the `Exception`, `AbortError`
and abort paths the rollback happens strictly before the response is
sent. -/
theorem c10_task_run_single_response :
    ∀ (inputs : List LoopInput) (evs : List TaskEvent) (resp : TaskControlResponse),
    taskRun false inputs = (evs, .finished resp) →
    respondsOf evs = [resp] ∧
    (hasCommit evs = true ↔ isSuccess resp = true) ∧
    (isSuccess resp = false → rollbackBeforeRespond evs) := by
  intro inputs evs resp h
  obtain ⟨pre, term, he, hp, ht⟩ := taskRun_shape inputs false evs resp h
  subst he
  have hpre_resp : respondsOf pre = [] := by
    rw [respondsOf, List.filterMap_eq_nil_iff]
    intro a ha
    rw [hp a ha]
  have hcap : ∀ a b : List TaskEvent, hasCommit (a ++ b)
      = (hasCommit a || hasCommit b) := by
    intro a b
    simp [hasCommit, List.any_append]
  have hpre_commit : hasCommit pre = false := by
    rw [hasCommit, List.any_eq_false]
    intro a ha
    rw [hp a ha]
    simp
  refine ⟨?_, ?_, ?_⟩
  · rw [respondsOf, List.filterMap_append, ← respondsOf, ← respondsOf, hpre_resp]
    cases resp with
    | success v => obtain ⟨cr, hc⟩ := ht; subst hc; rfl
    | exception e => rw [terminalShape] at ht; subst ht; rfl
    | abortError => rw [terminalShape] at ht; subst ht; rfl
    | abortCancelled => rw [terminalShape] at ht; subst ht; rfl
  · rw [hcap, hpre_commit, Bool.false_or, hasCommit]
    cases resp with
    | success v =>
      obtain ⟨cr, hc⟩ := ht; subst hc
      simp [isSuccess]
    | exception e => rw [terminalShape] at ht; subst ht; simp [isSuccess]
    | abortError => rw [terminalShape] at ht; subst ht; simp [isSuccess]
    | abortCancelled => rw [terminalShape] at ht; subst ht; simp [isSuccess]
  · intro hns
    cases resp with
    | success v => simp [isSuccess] at hns
    | exception e =>
      rw [terminalShape] at ht; subst ht
      exact ⟨pre, [TaskEvent.sendTextEv], TaskControlResponse.exception e, by simp⟩
    | abortError =>
      rw [terminalShape] at ht; subst ht
      exact ⟨pre, [], TaskControlResponse.abortError, by simp⟩
    | abortCancelled =>
      rw [terminalShape] at ht; subst ht
      exact ⟨pre, [], TaskControlResponse.abortCancelled, by simp⟩

/-- Witness for the C10 theorem at a concrete successful run. -/
theorem c10_task_run_single_response_witness :
    respondsOf [.startEv, .commitEv .success, .respondEv (.success (.int 1))]
      = [.success (.int 1)] ∧
    (hasCommit [.startEv, .commitEv .success, .respondEv (.success (.int 1))] = true
      ↔ isSuccess (.success (.int 1)) = true) :=
  have h := c10_task_run_single_response
    [⟨some (.startVerb true), .complete (.int 1), .success⟩]
    [.startEv, .commitEv .success, .respondEv (.success (.int 1))]
    (.success (.int 1)) rfl
  ⟨h.1, h.2.1⟩

end Moor
